import Mathlib

/-!
Shallow embedding of `notebooks/glm-edge-v/gradio_helper.py` (a Gradio chat
demo around the GLM-Edge-V multimodal model) together with proofs about the
claims of its specification.

The embedding models:
* the Python values that can sit in a chat-history slot (`PyText`),
* a chat-history turn `(user, assistant)` (`HistTurn`),
* the file attachments of the current message (`FileEntry`),
* the image-selection code at the top of `bot_streaming` (`resolveImage`),
* the upload-required error check (`checkImage`),
* the conversation assembly loop of `bot_streaming` (`histStep`,
  `buildConversation`),
* the streaming loop that accumulates generated text (`streamFrom`,
  `bot_stream`),
* the download-if-missing asset loop of `make_demo` (`prefetchStep`,
  `prefetchAssets`).
-/

/-- A Python value that can appear in the `user` slot of a Gradio history
turn, or inside a `{"type": "text", "text": ...}` content element: either a
plain string or a tuple (Gradio stores uploaded files as tuples whose first
element is the file path; `hist[0][0]` in the source only ever reads the
first element, so only that element is modelled). -/
inductive PyText where
  | str : String → PyText
  | tup : String → PyText
deriving DecidableEq, Repr

/-- One `(user, assistant)` pair of the Gradio chat history. `assistant` is
`none` when the turn is still in progress (Python `None`). -/
structure HistTurn where
  user : PyText
  assistant : Option String
deriving DecidableEq, Repr

/-- One element of `message["files"]`. The source comments that an element
"is a Dict or just a string"; the code additionally handles list/tuple
elements and objects carrying a `.path` attribute:

    if isinstance(files[-1], dict):
        image = files[-1]["path"]
    else:
        image = files[-1] if isinstance(files[-1], (list, tuple)) else files[-1].path

The `path` value of a dict or object may itself be Python `None`. -/
inductive FileEntry where
  | dict : Option String → FileEntry
  | str : String → FileEntry
  | seq : List String → FileEntry
  | obj : Option String → FileEntry
deriving DecidableEq, Repr

/-- The Python value ending up in the local variable `image` of
`bot_streaming` after the selection code ran (before `Image.open`):
`pynone` is Python `None`. -/
inductive ImageVal where
  | pynone : ImageVal
  | path : String → ImageVal
  | seq : List String → ImageVal
deriving DecidableEq, Repr

/-- The message of the `AttributeError` raised at line 32 when the last
attached file is a plain string: a Python `str` is neither a dict nor a
list/tuple, so the code evaluates `files[-1].path`, which a `str` does not
have. The exception is raised outside the `try`/`except NameError` block
and escapes `bot_streaming` uncaught. Throughout the embedding an
`Except.error` carries the message of the Python exception that escapes to
the caller, so this message and `uploadErrorMsg` keep the two error paths
apart. -/
def attrErrorMsg : String :=
  "AttributeError: str object has no attribute path"

/-- Image value extracted from one attached file, mirroring the
`isinstance` cascade in `bot_streaming` (lines 27-32 of the source): a dict
yields its `path` value, a list/tuple is used as the image wholesale, a
`.path`-carrying object yields its `path` attribute, and a plain string
raises `AttributeError` (see `attrErrorMsg`). -/
def fileImage : FileEntry → Except String ImageVal
  | FileEntry.dict Option.none => Except.ok ImageVal.pynone
  | FileEntry.dict (some p) => Except.ok (ImageVal.path p)
  | FileEntry.str _ => Except.error attrErrorMsg
  | FileEntry.seq es => Except.ok (ImageVal.seq es)
  | FileEntry.obj Option.none => Except.ok ImageVal.pynone
  | FileEntry.obj (some p) => Except.ok (ImageVal.path p)

/-- One iteration of the history-scanning loop

    for hist in history:
        if type(hist[0]) == tuple:
            image = hist[0][0]

the accumulator is `some v` when the variable `image` has been assigned and
`none` when it is still undefined. -/
def imgStep (acc : Option ImageVal) (turn : HistTurn) : Option ImageVal :=
  match turn.user with
  | PyText.tup p => some (ImageVal.path p)
  | PyText.str _ => acc

/-- The outcome of the image-selection code of `bot_streaming`:
`Except.ok (some v)` is the variable `image` holding `v`,
`Except.ok none` means the variable was never assigned (the `NameError`
case), and `Except.error` is the uncaught `AttributeError` of a
plain-string file entry. When the current message has attached files the
last one is used and the history is never scanned. -/
def resolveImage (files : List FileEntry) (history : List HistTurn) :
    Except String (Option ImageVal) :=
  match files.getLast? with
  | some f =>
    match fileImage f with
    | Except.error e => Except.error e
    | Except.ok v => Except.ok (some v)
  | Option.none => Except.ok (history.foldl imgStep Option.none)

/-- The user-facing error message raised by `bot_streaming` when no image is
available (the spelling, including the `GLM-Edeg-V` typo, is the source's). -/
def uploadErrorMsg : String :=
  "You need to upload an image for GLM-Edeg-V to work. Close the error and try again with an Image."

/-- The `try`/`except NameError` block of `bot_streaming`: raises the
upload-required `gr.Error` when `image` is undefined (`NameError`) or is
Python `None`; otherwise execution continues with the resolved image. An
`AttributeError` from the selection code itself happens above this block
and propagates unchanged. -/
def checkImage (files : List FileEntry) (history : List HistTurn) :
    Except String ImageVal :=
  match resolveImage files history with
  | Except.error e => Except.error e
  | Except.ok Option.none => Except.error uploadErrorMsg
  | Except.ok (some ImageVal.pynone) => Except.error uploadErrorMsg
  | Except.ok (some v) => Except.ok v

/-- One element of a conversation entry's content list: the
`{"type": "image"}` placeholder or a `{"type": "text", "text": v}` element
(`v` is whatever Python value the code put there, hence `PyText`). -/
inductive ContentPart where
  | image : ContentPart
  | text : PyText → ContentPart
deriving DecidableEq, Repr

/-- The `content` field of a conversation entry: the code stores either a
plain string (the `""` placeholder of a pending turn) or a list of typed
elements. -/
inductive Content where
  | str : String → Content
  | parts : List ContentPart → Content
deriving DecidableEq, Repr

/-- One entry of the `conversation` list handed to
`tokenizer.apply_chat_template`. -/
structure ConvEntry where
  role : String
  content : Content
deriving DecidableEq, Repr

/-- `conversation[0]["content"] = c` on a Python list: rewrites the content
of the first entry, leaves everything else in place (the source only runs
this when the list is non-empty). -/
def setFirstContent (c : Content) : List ConvEntry → List ConvEntry
  | [] => []
  | e :: rest => { e with content := c } :: rest

/-- One iteration of the conversation-building loop of `bot_streaming`
(lines 47-62). The state is the `conversation` list built so far together
with the `flag` boolean. A turn whose assistant is `None` appends a user
entry with content `""` and raises `flag`; the next completed turn, seen
with `flag` set, overwrites `conversation[0]`'s content with an image
placeholder plus its own user text and appends only its assistant entry;
a completed turn seen with `flag` clear appends a user/assistant pair. -/
def histStep (st : List ConvEntry × Bool) (turn : HistTurn) :
    List ConvEntry × Bool :=
  match turn.assistant with
  | Option.none => (st.1 ++ [⟨"user", Content.str ""⟩], true)
  | some a =>
    if st.2 then
      (setFirstContent
          (Content.parts [ContentPart.image, ContentPart.text turn.user]) st.1
        ++ [⟨"assistant", Content.parts [ContentPart.text (PyText.str a)]⟩],
        false)
    else
      (st.1
        ++ [⟨"user", Content.parts [ContentPart.text turn.user]⟩,
            ⟨"assistant", Content.parts [ContentPart.text (PyText.str a)]⟩],
        false)

/-- The full `conversation` list of `bot_streaming` right before the
`tokenizer.apply_chat_template` call: the history loop followed by the final
append of the current message (image placeholder plus text on an empty
history, text only otherwise). -/
def buildConversation (history : List HistTurn) (messageText : String) :
    List ConvEntry :=
  let st := history.foldl histStep ([], false)
  if history.length = 0 then
    st.1 ++ [⟨"user", Content.parts
      [ContentPart.image, ContentPart.text (PyText.str messageText)]⟩]
  else
    st.1 ++ [⟨"user", Content.parts [ContentPart.text (PyText.str messageText)]⟩]

/-- The prompt-assembly stage of `bot_streaming(message, history)`: the
image check runs first and short-circuits with the upload-required error
before any conversation is assembled; on success the resolved image and the
assembled conversation flow into generation. -/
def bot_prompt (files : List FileEntry) (history : List HistTurn)
    (messageText : String) : Except String (ImageVal × List ConvEntry) :=
  match checkImage files history with
  | Except.error e => Except.error e
  | Except.ok v => Except.ok (v, buildConversation history messageText)

/-- The streaming loop of `bot_streaming`:

    buffer = ""
    for new_text in streamer:
        buffer += new_text
        yield buffer

given the current buffer and the remaining text increments of the streamer,
the list of values yielded to the caller. -/
def streamFrom (buffer : String) : List String → List String
  | [] => []
  | t :: rest => (buffer ++ t) :: streamFrom (buffer ++ t) rest

/-- All values yielded by `bot_streaming`'s streaming loop for a given
sequence of streamer increments, starting from the empty buffer. -/
def bot_stream (incs : List String) : List String :=
  streamFrom "" incs

/-- Concatenation of a list of strings (the reference value of the buffer
after consuming those increments). -/
def concatAll : List String → String
  | [] => ""
  | s :: rest => s ++ concatAll rest

/-- The example-asset list of `make_demo` (`example_image_urls` in the
source): `(url, file_name)` pairs. -/
def example_image_urls : List (String × String) :=
  [("https://github.com/openvinotoolkit/openvino_notebooks/assets/29454499/dd5105d6-6a64-4935-8a34-3058a82c8d5d",
    "small.png"),
   ("https://github.com/openvinotoolkit/openvino_notebooks/assets/29454499/1221e2a8-a6da-413a-9af6-f04d56af3754",
    "chart.png")]

/-- One iteration of the asset-prefetch loop of `make_demo`:

    for url, file_name in example_image_urls:
        if not Path(file_name).exists():
            Image.open(requests.get(url, stream=True).raw).save(file_name)

The state is the local filesystem (an association list `file name ↦
content`; `lookup` answers `Path(file_name).exists()`) paired with the list
of URLs fetched so far, so that "no fetch occurs" is visible in the model.
`fetch` abstracts `requests.get`/`Image.open`: the image content obtained
from a URL. -/
def prefetchStep (fetch : String → String)
    (st : List (String × String) × List String) (asset : String × String) :
    List (String × String) × List String :=
  if (st.1.lookup asset.2).isSome then st
  else (st.1 ++ [(asset.2, fetch asset.1)], st.2 ++ [asset.1])

/-- The whole asset-prefetch loop of `make_demo` over an asset list. -/
def prefetchAssets (fetch : String → String) (assets : List (String × String))
    (st : List (String × String) × List String) :
    List (String × String) × List String :=
  assets.foldl (prefetchStep fetch) st

/-- Whether a history turn carries the string `s` (as its user text or its
assistant text): the only strings the conversation-building loop can copy
out of the history. -/
def turnMentions (s : String) (turn : HistTurn) : Bool :=
  decide (turn.user = PyText.str s) || decide (turn.assistant = some s)

/-- Whether the string `s` occurs in one conversation entry, either as the
entry's plain-string content or as the text of one of its content
elements. -/
def textOccursEntry (s : String) (e : ConvEntry) : Bool :=
  match e.content with
  | Content.str s' => decide (s = s')
  | Content.parts ps => ps.any fun p => decide (p = ContentPart.text (PyText.str s))

/-- Whether the string `s` occurs anywhere in a conversation. -/
def textOccurs (s : String) (conv : List ConvEntry) : Bool :=
  conv.any (textOccursEntry s)

/-- Whether a conversation entry's content carries the
`{"type": "image"}` placeholder. -/
def entryHasImage (e : ConvEntry) : Bool :=
  match e.content with
  | Content.str _ => false
  | Content.parts ps => ps.any fun p => decide (p = ContentPart.image)

/-- The role sequence `user, assistant, user, assistant, …, user` of a
conversation covering `n` completed turns followed by one final user
entry. -/
def altRoles : Nat → List String
  | 0 => ["user"]
  | n + 1 => "user" :: "assistant" :: altRoles n

/-- The conversation entries produced by the history loop when every turn of
the history is completed: one user/assistant entry pair per turn. -/
def completedPairs : List HistTurn → List ConvEntry
  | [] => []
  | turn :: rest =>
    match turn.assistant with
    | some a =>
      ⟨"user", Content.parts [ContentPart.text turn.user]⟩
        :: ⟨"assistant", Content.parts [ContentPart.text (PyText.str a)]⟩
        :: completedPairs rest
    | Option.none => completedPairs rest

/-! ### Helper lemmas -/

/-- The history-scanning loop never assigns `image` when no turn's user
element is a tuple. -/
lemma imgStep_foldl_no_tup (history : List HistTurn) (acc : Option ImageVal)
    (h : ∀ turn ∈ history, ∀ p, turn.user ≠ PyText.tup p) :
    history.foldl imgStep acc = acc := by
  induction history generalizing acc with
  | nil => rfl
  | cons turn rest ih =>
    have hturn := h turn (List.mem_cons_self _ _)
    have hstep : imgStep acc turn = acc := by
      unfold imgStep
      cases hu : turn.user with
      | str s => rfl
      | tup p => exact absurd hu (hturn p)
    rw [List.foldl_cons, hstep]
    exact ih acc fun t ht p => h t (List.mem_cons_of_mem _ ht) p

/-- With at least one attached file, the selection outcome — a resolved
image, or the `AttributeError` of a plain-string entry — comes from the
last file and the history plays no role. -/
lemma resolveImage_append (fs : List FileEntry) (f : FileEntry)
    (history : List HistTurn) :
    resolveImage (fs ++ [f]) history = (fileImage f).map some := by
  unfold resolveImage
  rw [List.getLast?_concat]
  show (match fileImage f with
    | Except.error e => Except.error e
    | Except.ok v => Except.ok (some v)) = (fileImage f).map some
  cases hf : fileImage f with
  | error e => rfl
  | ok v => rfl

/-- On a history whose turns are all completed, the conversation loop never
raises the flag and appends exactly one user/assistant pair per turn. -/
lemma foldl_histStep_completed (hist : List HistTurn) (conv : List ConvEntry)
    (h : ∀ turn ∈ hist, turn.assistant ≠ Option.none) :
    hist.foldl histStep (conv, false) = (conv ++ completedPairs hist, false) := by
  induction hist generalizing conv with
  | nil => simp [completedPairs]
  | cons turn rest ih =>
    cases ha : turn.assistant with
    | none => exact absurd ha (h turn (List.mem_cons_self _ _))
    | some a =>
      rw [List.foldl_cons]
      have hstep : histStep (conv, false) turn
          = (conv
              ++ [⟨"user", Content.parts [ContentPart.text turn.user]⟩,
                  ⟨"assistant",
                    Content.parts [ContentPart.text (PyText.str a)]⟩], false) := by
        simp [histStep, ha]
      rw [hstep, ih _ fun t ht => h t (List.mem_cons_of_mem _ ht)]
      simp [completedPairs, ha]

/-- On a fully completed history the loop output has two entries per
turn. -/
lemma completedPairs_length (hist : List HistTurn)
    (h : ∀ turn ∈ hist, turn.assistant ≠ Option.none) :
    (completedPairs hist).length = 2 * hist.length := by
  induction hist with
  | nil => rfl
  | cons turn rest ih =>
    cases ha : turn.assistant with
    | none => exact absurd ha (h turn (List.mem_cons_self _ _))
    | some a =>
      simp only [completedPairs, ha, List.length_cons]
      rw [ih fun t ht => h t (List.mem_cons_of_mem _ ht)]
      ring

/-- Roles of the loop output on a fully completed history, followed by one
final user entry: the strict user/assistant alternation ending in a user
entry. -/
lemma completedPairs_roles (hist : List HistTurn) (c : Content)
    (h : ∀ turn ∈ hist, turn.assistant ≠ Option.none) :
    List.map ConvEntry.role (completedPairs hist ++ [⟨"user", c⟩])
      = altRoles hist.length := by
  induction hist with
  | nil => rfl
  | cons turn rest ih =>
    cases ha : turn.assistant with
    | none => exact absurd ha (h turn (List.mem_cons_self _ _))
    | some a =>
      simp only [completedPairs, ha, List.cons_append, List.map_cons,
        List.length_cons]
      rw [ih fun t ht => h t (List.mem_cons_of_mem _ ht)]
      rfl

/-! ### C1: no image anywhere means the upload-required error -/

/-- C1: when the current message has no attached files and no history turn
has a tuple-shaped user element, `bot_streaming` raises the upload-required
error; in the embedding the error is produced by the image check and
short-circuits `bot_prompt` before `buildConversation` contributes anything
to the result, matching the source where the `raise` sits above the prompt
assembly and the generation call. -/
theorem C1_no_image_upload_error (history : List HistTurn) (t : String)
    (h : ∀ turn ∈ history, ∀ p, turn.user ≠ PyText.tup p) :
    bot_prompt [] history t = Except.error uploadErrorMsg := by
  have hres : resolveImage [] history = Except.ok Option.none := by
    unfold resolveImage
    simp only [List.getLast?_nil]
    rw [imgStep_foldl_no_tup history Option.none h]
  unfold bot_prompt checkImage
  rw [hres]

/-- Witness for C1 at a concrete input: a text-only history and no files. -/
theorem C1_no_image_upload_error_witness :
    bot_prompt [] [⟨PyText.str "hi", some "yo"⟩] "ok"
      = Except.error uploadErrorMsg :=
  C1_no_image_upload_error [⟨PyText.str "hi", some "yo"⟩] "ok"
    (by intro turn hturn p; fin_cases hturn; simp)

/-! ### C4: empty history plus uploaded image gives one image-and-text entry -/

/-- C4: with an empty history and a message whose attached files end in a
file actually carrying an uploaded image — the extraction succeeds with a
value `v` (ruling out the plain-string `AttributeError` crash) and `v` is
not Python `None` — the produced conversation is a single user entry whose
content is the image placeholder followed by the message text. -/
theorem C4_first_turn_image_and_text (fs : List FileEntry) (f : FileEntry)
    (t : String) (v : ImageVal) (h1 : fileImage f = Except.ok v)
    (h2 : v ≠ ImageVal.pynone) :
    bot_prompt (fs ++ [f]) [] t
      = Except.ok (v,
          [⟨"user", Content.parts
            [ContentPart.image, ContentPart.text (PyText.str t)]⟩]) := by
  unfold bot_prompt checkImage
  rw [resolveImage_append, h1]
  cases v with
  | pynone => exact absurd rfl h2
  | path p => rfl
  | seq es => rfl

/-- Evaluation of `bot_prompt` at the plain-string crash input excluded by
C4's hypotheses: the call aborts with the uncaught `AttributeError`, not
with a conversation. -/
lemma bot_prompt_plain_str (fs : List FileEntry) (s t : String)
    (history : List HistTurn) :
    bot_prompt (fs ++ [FileEntry.str s]) history t
      = Except.error attrErrorMsg := by
  unfold bot_prompt checkImage
  rw [resolveImage_append]
  rfl

/-- Witness for C4 at a concrete input: one dict file entry with a path. -/
theorem C4_first_turn_image_and_text_witness :
    bot_prompt [FileEntry.dict (some "cat.png")] [] "what is this"
      = Except.ok (ImageVal.path "cat.png",
          [⟨"user", Content.parts
            [ContentPart.image, ContentPart.text (PyText.str "what is this")]⟩]) :=
  C4_first_turn_image_and_text [] (FileEntry.dict (some "cat.png"))
    "what is this" (ImageVal.path "cat.png") rfl (by decide)

/-! ### C2: conversation length and role alternation (corrected) -/

/-- Counterexample to C2 as stated: on the one-turn history whose assistant
is `None`, the produced conversation has 2 entries, not
`len(history)*2 + 1 = 3` — the pending turn contributes a single user entry
instead of a pair. -/
theorem C2_counterexample :
    (buildConversation [⟨PyText.str "hi", Option.none⟩] "ok").length
      ≠ 2 * 1 + 1 := by
  decide

/-- C2 amended: on every history in which every assistant element is
present (no `None`), the conversation passed to the chat template has
exactly `2 * len(history) + 1` entries and its roles strictly alternate
`user, assistant, …`, ending in a final user entry (the `altRoles`
pattern). -/
theorem C2_length_and_roles (hist : List HistTurn) (t : String)
    (h : ∀ turn ∈ hist, turn.assistant ≠ Option.none) :
    (buildConversation hist t).length = 2 * hist.length + 1
      ∧ List.map ConvEntry.role (buildConversation hist t)
          = altRoles hist.length := by
  unfold buildConversation
  rcases hist with _ | ⟨turn, rest⟩
  · simp [completedPairs, altRoles]
  · rw [foldl_histStep_completed _ _ h]
    have hne : (turn :: rest).length ≠ 0 := by simp
    simp only [hne, if_false, List.nil_append]
    constructor
    · rw [List.length_append, completedPairs_length _ h]
      rfl
    · exact completedPairs_roles _ _ h

/-- Witness for C2 at a concrete input: a two-turn completed history. -/
theorem C2_length_and_roles_witness :
    (buildConversation
        [⟨PyText.str "a", some "b"⟩, ⟨PyText.tup "i.png", some "d"⟩]
        "ok").length = 2 * 2 + 1
      ∧ List.map ConvEntry.role
          (buildConversation
            [⟨PyText.str "a", some "b"⟩, ⟨PyText.tup "i.png", some "d"⟩]
            "ok") = altRoles 2 :=
  C2_length_and_roles
    [⟨PyText.str "a", some "b"⟩, ⟨PyText.tup "i.png", some "d"⟩] "ok"
    (by intro turn hturn; fin_cases hturn; simp; simp)

/-! ### C3: the pending turn's user text (corrected) -/

/-- Counterexample to C3 as stated: in the history
`[("hello", None), ("world", "resp")]` the pending turn's own user text
`"hello"` is not merged into the still-open turn — it occurs nowhere in the
produced conversation. -/
theorem C3_counterexample :
    textOccurs "hello"
      (buildConversation
        [⟨PyText.str "hello", Option.none⟩, ⟨PyText.str "world", some "resp"⟩]
        "now") = false := by
  decide

/-- C3 amended: a turn whose assistant is `None` contributes a user entry
with empty-string content and raises the pending flag, and its own user
text is dropped; the completed turn that follows contributes only its
assistant entry while its user text is merged, together with the image
placeholder, into the content of the conversation's *first* entry (index 0
of the whole conversation, via `setFirstContent`), wherever the pending
turn sits: the earlier turns `hist` are arbitrary, the pending slot itself
keeps its empty-string user entry whenever `hist` is non-empty, and the
result does not mention the pending turn's user element `u1` at all.
Taking `hist = []` recovers the canonical case where the merged entry is
the pending slot itself. -/
theorem C3_pending_turn_merge (hist : List HistTurn) (u1 u2 : PyText)
    (a t : String) :
    buildConversation (hist ++ [⟨u1, Option.none⟩, ⟨u2, some a⟩]) t
      = setFirstContent
          (Content.parts [ContentPart.image, ContentPart.text u2])
          ((hist.foldl histStep ([], false)).1 ++ [⟨"user", Content.str ""⟩])
        ++ [⟨"assistant", Content.parts [ContentPart.text (PyText.str a)]⟩,
            ⟨"user", Content.parts [ContentPart.text (PyText.str t)]⟩] := by
  unfold buildConversation
  have hlen : (hist
      ++ [(⟨u1, Option.none⟩ : HistTurn), ⟨u2, some a⟩]).length ≠ 0 := by
    simp
  simp only [hlen, if_false, List.foldl_append, List.foldl_cons,
    List.foldl_nil]
  rw [show histStep (histStep (hist.foldl histStep ([], false))
        ⟨u1, Option.none⟩) ⟨u2, some a⟩
      = (setFirstContent
          (Content.parts [ContentPart.image, ContentPart.text u2])
          ((hist.foldl histStep ([], false)).1 ++ [⟨"user", Content.str ""⟩])
        ++ [⟨"assistant", Content.parts [ContentPart.text (PyText.str a)]⟩],
        false) from rfl]
  rw [List.append_assoc]
  rfl

/-- Invariant of the conversation-building loop: the flag is only raised on
a non-empty conversation, no entry after the first carries the image
placeholder, and the first entry (when present) has the `user` role. -/
lemma histStep_inv (st : List ConvEntry × Bool) (turn : HistTurn)
    (h1 : st.2 = true → st.1 ≠ [])
    (h2 : ∀ e ∈ st.1.tail, entryHasImage e = false)
    (h3 : st.1 = [] ∨ st.1.head?.map ConvEntry.role = some "user") :
    ((histStep st turn).2 = true → (histStep st turn).1 ≠ [])
      ∧ (∀ e ∈ (histStep st turn).1.tail, entryHasImage e = false)
      ∧ ((histStep st turn).1 = []
          ∨ (histStep st turn).1.head?.map ConvEntry.role = some "user") := by
  obtain ⟨conv, flag⟩ := st
  cases ha : turn.assistant with
  | none =>
    simp only [histStep, ha]
    refine ⟨by simp, ?_, ?_⟩
    · rcases conv with _ | ⟨e, rest⟩
      · simp
      · intro e' he'
        simp only [List.cons_append, List.tail_cons] at he'
        rcases List.mem_append.mp he' with hmem | hmem
        · exact h2 e' hmem
        · rw [List.mem_singleton.mp hmem]; rfl
    · rcases conv with _ | ⟨e, rest⟩
      · simp
      · right
        rcases h3 with h3 | h3
        · exact absurd h3 (by simp)
        · simpa using h3
  | some a =>
    cases flag with
    | true =>
      have hconv : conv ≠ [] := h1 rfl
      rcases conv with _ | ⟨e, rest⟩
      · exact absurd rfl hconv
      · simp only [histStep, ha, if_true]
        refine ⟨by simp, ?_, ?_⟩
        · intro e' he'
          simp only [setFirstContent, List.cons_append, List.tail_cons] at he'
          rcases List.mem_append.mp he' with hmem | hmem
          · exact h2 e' hmem
          · rw [List.mem_singleton.mp hmem]; rfl
        · right
          rcases h3 with h3 | h3
          · exact absurd h3 (by simp)
          · simp only [setFirstContent, List.cons_append, List.head?_cons,
              Option.map_some] at h3 ⊢
            exact h3
    | false =>
      simp only [histStep, ha, if_false]
      refine ⟨by simp, ?_, ?_⟩
      · rcases conv with _ | ⟨e, rest⟩
        · intro e' he'
          simp only [List.nil_append, List.tail_cons] at he'
          rw [List.mem_singleton.mp he']; rfl
        · intro e' he'
          simp only [List.cons_append, List.tail_cons] at he'
          rcases List.mem_append.mp he' with hmem | hmem
          · exact h2 e' hmem
          · rcases List.mem_cons.mp hmem with hmem | hmem
            · rw [hmem]; rfl
            · rw [List.mem_singleton.mp hmem]; rfl
      · rcases conv with _ | ⟨e, rest⟩
        · right; rfl
        · right
          rcases h3 with h3 | h3
          · exact absurd h3 (by simp)
          · simpa using h3

/-- The loop invariant of `histStep_inv`, carried over the whole history
fold. -/
lemma foldl_histStep_inv (hist : List HistTurn) (st : List ConvEntry × Bool)
    (h1 : st.2 = true → st.1 ≠ [])
    (h2 : ∀ e ∈ st.1.tail, entryHasImage e = false)
    (h3 : st.1 = [] ∨ st.1.head?.map ConvEntry.role = some "user") :
    ((hist.foldl histStep st).2 = true → (hist.foldl histStep st).1 ≠ [])
      ∧ (∀ e ∈ (hist.foldl histStep st).1.tail, entryHasImage e = false)
      ∧ ((hist.foldl histStep st).1 = []
          ∨ (hist.foldl histStep st).1.head?.map ConvEntry.role
              = some "user") := by
  induction hist generalizing st with
  | nil => exact ⟨h1, h2, h3⟩
  | cons turn rest ih =>
    rw [List.foldl_cons]
    obtain ⟨g1, g2, g3⟩ := histStep_inv st turn h1 h2 h3
    exact ih _ g1 g2 g3

/-! ### C5: the image placeholder only ever sits in the first entry -/

/-- C5: on every non-empty history, the user entry appended for the current
message is text-only (it is the conversation's last entry and its content
is a single text element), no conversation entry after the first carries
the image placeholder, and the first entry is a user entry — so the image
placeholder can only ever sit in the conversation's first user entry. -/
theorem C5_image_only_first (hist : List HistTurn) (t : String)
    (h : hist ≠ []) :
    (buildConversation hist t).head?.map ConvEntry.role = some "user"
      ∧ ((buildConversation hist t).tail.all fun e => !(entryHasImage e))
          = true
      ∧ (buildConversation hist t).getLast?
          = some ⟨"user", Content.parts [ContentPart.text (PyText.str t)]⟩ := by
  have hlen : hist.length ≠ 0 := fun hc => h (List.length_eq_zero.mp hc)
  unfold buildConversation
  simp only [hlen, if_false]
  obtain ⟨g1, g2, g3⟩ :=
    foldl_histStep_inv hist ([], false) (by simp) (by simp) (Or.inl rfl)
  set conv := (hist.foldl histStep ([], false)).1 with hconv
  refine ⟨?_, ?_, ?_⟩
  · rcases hc : conv with _ | ⟨e, rest⟩
    · rfl
    · rcases g3 with g3 | g3
      · rw [hc] at g3; exact absurd g3 (by simp)
      · rw [hc] at g3
        simpa using g3
  · rw [List.all_eq_true]
    intro e' he'
    rcases hc : conv with _ | ⟨e, rest⟩
    · rw [hc] at he'
      simp at he'
    · rw [hc] at he'
      simp only [List.cons_append, List.tail_cons] at he'
      rcases List.mem_append.mp he' with hmem | hmem
      · have := g2 e' (by rw [hc]; simpa using hmem)
        simp [this]
      · rw [List.mem_singleton.mp hmem]; rfl
  · rw [List.getLast?_concat]

/-- Witness for C5 at a concrete input: a one-turn completed history. -/
theorem C5_image_only_first_witness :
    (buildConversation [⟨PyText.str "a", some "b"⟩] "ok").head?.map
        ConvEntry.role = some "user"
      ∧ ((buildConversation [⟨PyText.str "a", some "b"⟩] "ok").tail.all
          fun e => !(entryHasImage e)) = true
      ∧ (buildConversation [⟨PyText.str "a", some "b"⟩] "ok").getLast?
          = some ⟨"user", Content.parts [ContentPart.text (PyText.str "ok")]⟩ :=
  C5_image_only_first [⟨PyText.str "a", some "b"⟩] "ok" (by simp)

/-! ### C6: the last attached file wins and the history is not consulted -/

/-- C6: whenever the current message has at least one attached file, the
whole outcome of image selection is computed from the last attached file
alone — any resolved image is the one `fileImage` extracts from that last
file, and a plain-string last file yields its `AttributeError` instead —
and the outcome does not depend on the history (the history-scanning loop
is never entered, so the history is not consulted for an image even on the
crash path). -/
theorem C6_last_file_image (fs : List FileEntry) (f : FileEntry)
    (history history' : List HistTurn) :
    resolveImage (fs ++ [f]) history = (fileImage f).map some
      ∧ resolveImage (fs ++ [f]) history
          = resolveImage (fs ++ [f]) history' := by
  constructor
  · exact resolveImage_append fs f history
  · rw [resolveImage_append, resolveImage_append]

/-! ### C7: the streamed output is an append-only accumulating buffer -/

/-- Concatenation distributes over list append. -/
lemma concatAll_append (l1 l2 : List String) :
    concatAll (l1 ++ l2) = concatAll l1 ++ concatAll l2 := by
  induction l1 with
  | nil => simp [concatAll, String.empty_append]
  | cons s rest ih => simp [concatAll, ih, String.append_assoc]

/-- Closed form of the streaming loop: starting from buffer `b`, the `n`-th
yielded value is `b` followed by the concatenation of the first `n + 1`
increments. -/
lemma streamFrom_eq (incs : List String) :
    ∀ b, streamFrom b incs
      = (List.range incs.length).map fun n => b ++ concatAll (incs.take (n + 1)) := by
  induction incs with
  | nil => intro b; rfl
  | cons t rest ih =>
    intro b
    simp only [streamFrom, List.length_cons, List.range_succ_eq_map,
      List.map_cons, List.map_map]
    congr 1
    · simp [concatAll, String.append_empty]
    · rw [ih (b ++ t)]
      apply List.map_congr_left
      intro n _
      simp only [Function.comp_apply, Nat.succ_eq_add_one, List.take_succ_cons,
        concatAll, String.append_assoc]

/-- C7: the values yielded by the streaming loop form an append-only
accumulating buffer — the `n`-th yielded value is exactly the concatenation
of the first `n + 1` streamer increments, and consequently every yielded
value is a prefix of every later yielded value (the later one is the
earlier one followed by some remainder `r`). -/
theorem C7_stream_accumulates (incs : List String) :
    bot_stream incs
      = ((List.range incs.length).map fun n => concatAll (incs.take (n + 1)))
      ∧ ∀ (m n : Nat) (x y : String), m ≤ n → (bot_stream incs)[m]? = some x →
          (bot_stream incs)[n]? = some y → ∃ r, x ++ r = y := by
  have hmain : bot_stream incs
      = (List.range incs.length).map fun n => concatAll (incs.take (n + 1)) := by
    rw [bot_stream, streamFrom_eq]
    apply List.map_congr_left
    intro n _
    rw [String.empty_append]
  refine ⟨hmain, ?_⟩
  intro m n x y hmn hx hy
  rw [hmain, List.getElem?_map] at hx hy
  rcases hm : (List.range incs.length)[m]? with _ | vm
  · rw [hm] at hx; exact absurd hx (by simp)
  · rcases hn : (List.range incs.length)[n]? with _ | vn
    · rw [hn] at hy; exact absurd hy (by simp)
    · rw [hm] at hx
      rw [hn] at hy
      have hmlt : m < incs.length := by
        have := List.getElem?_eq_some.mp hm
        simpa using this.1
      have hnlt : n < incs.length := by
        have := List.getElem?_eq_some.mp hn
        simpa using this.1
      have hvm : vm = m := by
        rw [List.getElem?_range hmlt] at hm
        exact (Option.some_injective _ hm).symm
      have hvn : vn = n := by
        rw [List.getElem?_range hnlt] at hn
        exact (Option.some_injective _ hn).symm
      have hx' : x = concatAll (incs.take (m + 1)) := by
        simpa [hvm] using hx.symm
      have hy' : y = concatAll (incs.take (n + 1)) := by
        simpa [hvn] using hy.symm
      refine ⟨concatAll ((incs.take (n + 1)).drop (m + 1)), ?_⟩
      have htake : incs.take (m + 1) = (incs.take (n + 1)).take (m + 1) := by
        rw [List.take_take]
        have hmin : min (m + 1) (n + 1) = m + 1 := by omega
        rw [hmin]
      rw [hx', hy', htake, ← concatAll_append, List.take_append_drop]

/-- Witness for C7 at a concrete input: with increments `["ab", "c"]` the
first yielded value `"ab"` is a prefix of the second, `"abc"`. -/
theorem C7_stream_accumulates_witness : ∃ r, "ab" ++ r = "abc" :=
  (C7_stream_accumulates ["ab", "c"]).2 0 1 "ab" "abc" (by decide)
    (by decide) (by decide)

/-! ### C8: download-if-missing asset prefetch -/

/-- A key found in the front of an association list is still found, with
the same value, after appending entries at the back. -/
lemma lookup_append_some (l1 l2 : List (String × String)) (k c : String)
    (h : l1.lookup k = some c) : (l1 ++ l2).lookup k = some c := by
  induction l1 with
  | nil => exact absurd h (by simp)
  | cons p rest ih =>
    rcases p with ⟨a, b⟩
    by_cases hk : k = a
    · simpa [List.lookup, hk] using h
    · have hk' : (k == a) = false := beq_false_of_ne hk
      simp only [List.cons_append, List.lookup, hk', if_neg] at h ⊢
      exact ih h

/-- One prefetch iteration never removes or rewrites an existing file. -/
lemma prefetchStep_preserves (fetch : String → String)
    (st : List (String × String) × List String) (asset : String × String)
    (k c : String) (h : st.1.lookup k = some c) :
    (prefetchStep fetch st asset).1.lookup k = some c := by
  unfold prefetchStep
  by_cases hc : (st.1.lookup asset.2).isSome
  · simpa [hc] using h
  · simp only [hc, if_false]
    exact lookup_append_some _ _ _ _ h

/-- The whole prefetch loop never removes or rewrites an existing file. -/
lemma prefetchAssets_preserves (fetch : String → String)
    (assets : List (String × String))
    (st : List (String × String) × List String) (k c : String)
    (h : st.1.lookup k = some c) :
    (prefetchAssets fetch assets st).1.lookup k = some c := by
  induction assets generalizing st with
  | nil => exact h
  | cons asset rest ih =>
    rw [prefetchAssets, List.foldl_cons]
    exact ih _ (prefetchStep_preserves fetch st asset k c h)

/-- C8: for each `(url, file_name)` pair, the asset is fetched and saved
under `file_name` exactly when no file of that name exists yet; when the
file exists the step is a no-op (nothing is fetched, the filesystem is
untouched), and an existing file survives the whole loop with its content
unchanged. -/
theorem C8_prefetch_iff_missing (fetch : String → String)
    (fs : List (String × String)) (gots : List String) (url name : String) :
    ((fs.lookup name).isSome = true →
        prefetchStep fetch (fs, gots) (url, name) = (fs, gots))
      ∧ (fs.lookup name = Option.none →
          prefetchStep fetch (fs, gots) (url, name)
            = (fs ++ [(name, fetch url)], gots ++ [url]))
      ∧ ∀ (assets : List (String × String)) (c : String),
          fs.lookup name = some c →
            (prefetchAssets fetch assets (fs, gots)).1.lookup name = some c := by
  refine ⟨?_, ?_, ?_⟩
  · intro h
    simp [prefetchStep, h]
  · intro h
    simp [prefetchStep, h]
  · intro assets c h
    exact prefetchAssets_preserves fetch assets (fs, gots) name c h

/-- Witness for C8 at concrete inputs: on an empty filesystem the asset is
fetched and saved; on a filesystem already holding `small.png` the step
does nothing, and `small.png` survives the whole example-asset loop
unchanged. -/
theorem C8_prefetch_iff_missing_witness :
    prefetchStep (fun _ => "img") ([], []) ("u1", "small.png")
        = ([("small.png", "img")], ["u1"])
      ∧ prefetchStep (fun _ => "img") ([("small.png", "old")], [])
          ("u1", "small.png") = ([("small.png", "old")], [])
      ∧ (prefetchAssets (fun _ => "img") example_image_urls
          ([("small.png", "old")], [])).1.lookup "small.png" = some "old" :=
  ⟨(C8_prefetch_iff_missing (fun _ => "img") [] [] "u1" "small.png").2.1 rfl,
   (C8_prefetch_iff_missing (fun _ => "img") [("small.png", "old")] [] "u1"
      "small.png").1 rfl,
   (C8_prefetch_iff_missing (fun _ => "img") [("small.png", "old")] [] "u1"
      "small.png").2.2 example_image_urls "old" rfl⟩

/-! ### C10: a trailing pending turn's user text is silently dropped -/

/-- `textOccurs` distributes over list append. -/
lemma textOccurs_append (s : String) (l1 l2 : List ConvEntry) :
    textOccurs s (l1 ++ l2) = (textOccurs s l1 || textOccurs s l2) := by
  simp [textOccurs, List.any_append]

/-- Overwriting the first entry's content can only introduce texts of the
new content. -/
lemma textOccurs_setFirstContent (s : String) (c : Content)
    (l : List ConvEntry) (h : textOccurs s (setFirstContent c l) = true) :
    textOccurs s l = true ∨ textOccursEntry s ⟨"user", c⟩ = true := by
  rcases l with _ | ⟨e, rest⟩
  · exact absurd h (by simp [setFirstContent, textOccurs])
  · simp only [setFirstContent, textOccurs, List.any_cons, Bool.or_eq_true] at h ⊢
    rcases h with h | h
    · right
      simpa [textOccursEntry] using h
    · left; right; exact h

/-- Any string occurring in the conversation built by the history loop
either occurred in the incoming conversation, is the empty-string
placeholder, or is mentioned by some history turn. -/
lemma textOccurs_foldl (hist : List HistTurn) (st : List ConvEntry × Bool)
    (s : String)
    (h : textOccurs s ((hist.foldl histStep st).1) = true) :
    textOccurs s st.1 = true ∨ s = "" ∨ hist.any (turnMentions s) = true := by
  induction hist generalizing st with
  | nil => exact Or.inl h
  | cons turn rest ih =>
    rw [List.foldl_cons] at h
    rcases ih _ h with hstep | hs | hrest
    · -- the string occurs right after one loop iteration
      cases ha : turn.assistant with
      | none =>
        rw [histStep] at hstep
        rw [ha] at hstep
        rw [textOccurs_append] at hstep
        rcases Bool.or_eq_true_iff.mp hstep with hin | hnew
        · exact Or.inl hin
        · right; left
          simpa [textOccurs, textOccursEntry] using hnew
      | some a =>
        rw [histStep] at hstep
        rw [ha] at hstep
        cases hflag : st.2 with
        | true =>
          rw [hflag] at hstep
          simp only [if_true] at hstep
          rw [textOccurs_append] at hstep
          rcases Bool.or_eq_true_iff.mp hstep with hin | hnew
          · rcases textOccurs_setFirstContent s _ _ hin with hin' | hc
            · exact Or.inl hin'
            · right; right
              have : turn.user = PyText.str s := by
                simpa [textOccursEntry] using hc
              simp [List.any_cons, turnMentions, this]
          · right; right
            have : a = s := by
              simpa [textOccurs, textOccursEntry] using hnew
            simp [List.any_cons, turnMentions, ha, this]
        | false =>
          rw [hflag] at hstep
          simp only [Bool.false_eq_true, if_false] at hstep
          rw [textOccurs_append] at hstep
          rcases Bool.or_eq_true_iff.mp hstep with hin | hnew
          · exact Or.inl hin
          · right; right
            simp only [textOccurs, List.any_cons, List.any_nil, Bool.or_false,
              Bool.or_eq_true] at hnew
            rcases hnew with hu | haa
            · have : turn.user = PyText.str s := by
                simpa [textOccursEntry] using hu
              simp [List.any_cons, turnMentions, this]
            · have : a = s := by
                simpa [textOccursEntry] using haa
              simp [List.any_cons, turnMentions, ha, this]
    · exact Or.inr (Or.inl hs)
    · right; right
      simp [List.any_cons, hrest]

/-- C10: when the final history turn has `assistant = None` (and nothing
follows it), the loop ends with the flag still raised and the merge step
never runs: the conversation is the entries built from the earlier turns,
then a user entry whose content is the empty string at that turn's
position, then the final user entry for the current message — the pending
turn's user element `u` contributes nothing, and a string not mentioned by
the earlier turns, not `""` and not the current message text occurs nowhere
in the conversation. -/
theorem C10_trailing_pending_dropped (hist : List HistTurn) (u : PyText)
    (t : String) :
    buildConversation (hist ++ [⟨u, Option.none⟩]) t
        = (hist.foldl histStep ([], false)).1
            ++ [⟨"user", Content.str ""⟩,
                ⟨"user", Content.parts [ContentPart.text (PyText.str t)]⟩]
      ∧ ∀ s : String, hist.any (turnMentions s) = false → s ≠ "" → s ≠ t →
          textOccurs s (buildConversation (hist ++ [⟨u, Option.none⟩]) t)
            = false := by
  have hmain : buildConversation (hist ++ [⟨u, Option.none⟩]) t
      = (hist.foldl histStep ([], false)).1
          ++ [⟨"user", Content.str ""⟩,
              ⟨"user", Content.parts [ContentPart.text (PyText.str t)]⟩] := by
    unfold buildConversation
    have hlen : (hist ++ [(⟨u, Option.none⟩ : HistTurn)]).length ≠ 0 := by
      simp
    simp only [hlen, if_false, List.foldl_append, List.foldl_cons,
      List.foldl_nil]
    rw [show histStep (hist.foldl histStep ([], false)) ⟨u, Option.none⟩
        = ((hist.foldl histStep ([], false)).1
            ++ [⟨"user", Content.str ""⟩], true) from rfl]
    rw [List.append_assoc]
    rfl
  refine ⟨hmain, ?_⟩
  intro s hment hne hnt
  rw [hmain]
  rcases hb : textOccurs s ((hist.foldl histStep ([], false)).1
      ++ [⟨"user", Content.str ""⟩,
          ⟨"user", Content.parts [ContentPart.text (PyText.str t)]⟩]) with _ | _
  · exact hb
  · exfalso
    rw [textOccurs_append] at hb
    rcases Bool.or_eq_true_iff.mp hb with hin | hnew
    · rcases textOccurs_foldl hist ([], false) s hin with hemp | hs | hany
      · exact absurd hemp (by simp [textOccurs])
      · exact hne hs
      · rw [hment] at hany
        exact Bool.false_ne_true hany
    · simp only [textOccurs, List.any_cons, List.any_nil, Bool.or_false,
        Bool.or_eq_true] at hnew
      rcases hnew with h1 | h2
      · have hs1 : s = "" := by simpa [textOccursEntry] using h1
        exact hne hs1
      · have hs2 : t = s := by simpa [textOccursEntry] using h2
        exact hnt hs2.symm

/-- Witness for C10 at a concrete input: history
`[("a", "b"), ("lost", None)]` with current message `"new"` — the pending
turn's text `"lost"` occurs nowhere in the produced conversation. -/
theorem C10_trailing_pending_dropped_witness :
    textOccurs "lost"
      (buildConversation
        [⟨PyText.str "a", some "b"⟩, ⟨PyText.str "lost", Option.none⟩]
        "new") = false :=
  (C10_trailing_pending_dropped [⟨PyText.str "a", some "b"⟩]
      (PyText.str "lost") "new").2 "lost" (by decide) (by decide) (by decide)
